import Mathlib

/-!
Verification of the Verbalize core (src/functions/index.js): the prompt
builder `createCodePrompt`, the response sanitizer `cleanGeneratedCode`, and
the `processVoice` pipeline, embedded shallowly over `String`/`List Char`.
Strings are modelled as their character lists; the relevant JS string
operations (the regex replace on line 134, `trim`, `toLowerCase`,
`startsWith`, `substring`, `join`) are embedded as executable functions.
-/

namespace Verbalize

/-- A JS `\w` character (the regex `[\w]` on line 134 of index.js):
`[A-Za-z0-9_]`. -/
def isWordChar (c : Char) : Bool :=
  (48 ≤ c.toNat && c.toNat ≤ 57) || (65 ≤ c.toNat && c.toNat ≤ 90) ||
    (97 ≤ c.toNat && c.toNat ≤ 122) || c.toNat = 95

/-- A character `String.prototype.trim` removes: ECMAScript WhiteSpace and
LineTerminator code points. -/
def isJsWs (c : Char) : Bool :=
  c.toNat = 9 || c.toNat = 10 || c.toNat = 11 || c.toNat = 12 || c.toNat = 13 ||
    c.toNat = 32 || c.toNat = 0xA0 || c.toNat = 0x1680 ||
    (0x2000 ≤ c.toNat && c.toNat ≤ 0x200A) || c.toNat = 0x2028 ||
    c.toNat = 0x2029 || c.toNat = 0x202F || c.toNat = 0x205F ||
    c.toNat = 0x3000 || c.toNat = 0xFEFF

/-- The optional `\n?` tail of the fence regex: drop one leading newline. -/
def dropNl (l : List Char) : List Char :=
  match l with
  | [] => []
  | c :: r => if c = '\n' then r else c :: r

theorem dropNl_length_le (l : List Char) : (dropNl l).length ≤ l.length := by
  cases l with
  | nil => exact Nat.le_refl _
  | cons c r =>
    by_cases hc : c = '\n' <;> simp [dropNl, hc]

/-- Embedding of `code.replace(/```[\w]*\n?/g, '')` (index.js line 134): scan
left to right; at each triple backtick consume it, the maximal run of word
characters (the greedy `[\w]*`) and one optional newline, and emit everything
else. -/
def stripFences (l : List Char) : List Char :=
  if _h : List.isPrefixOf "```".data l then
    stripFences (dropNl ((l.drop 3).dropWhile isWordChar))
  else
    match l with
    | [] => []
    | c :: rest => c :: stripFences rest
termination_by l.length
decreasing_by
  · have hp : "```".data <+: l := List.isPrefixOf_iff_prefix.mp _h
    have h3 : 3 ≤ l.length := by simpa using hp.length_le
    have h1 : (dropNl ((l.drop 3).dropWhile isWordChar)).length ≤
        ((l.drop 3).dropWhile isWordChar).length := dropNl_length_le _
    have h2 : ((l.drop 3).dropWhile isWordChar).length ≤ (l.drop 3).length :=
      (List.dropWhile_suffix isWordChar).length_le
    have h4 : (l.drop 3).length = l.length - 3 := l.length_drop 3
    omega
  · simp

/-- Fuel-indexed structural companion of `stripFences`, for kernel
evaluation at concrete inputs (`stripFences` itself recurses on a
well-founded measure, which `decide` cannot reduce). -/
def stripFencesFuel : Nat → List Char → List Char
  | 0, l => l
  | f + 1, l =>
    if List.isPrefixOf "```".data l then
      stripFencesFuel f (dropNl ((l.drop 3).dropWhile isWordChar))
    else
      match l with
      | [] => []
      | c :: rest => c :: stripFencesFuel f rest

theorem stripFences_fence {l : List Char}
    (h : List.isPrefixOf "```".data l = true) :
    stripFences l = stripFences (dropNl ((l.drop 3).dropWhile isWordChar)) := by
  rw [stripFences.eq_def]
  simp [h]

theorem stripFences_nil : stripFences [] = [] := by
  rw [stripFences.eq_def]
  simp

theorem stripFences_cons {c : Char} {rest : List Char}
    (h : ¬ List.isPrefixOf "```".data (c :: rest) = true) :
    stripFences (c :: rest) = c :: stripFences rest := by
  rw [stripFences.eq_def]
  simp [h]

theorem stripFencesFuel_eq (f : Nat) (l : List Char) (hf : l.length ≤ f) :
    stripFencesFuel f l = stripFences l := by
  induction f generalizing l with
  | zero =>
    have : l = [] := List.eq_nil_of_length_eq_zero (Nat.le_zero.mp hf)
    subst this
    rw [stripFences_nil]
    rfl
  | succ f ih =>
    by_cases h : List.isPrefixOf "```".data l = true
    · have hp : "```".data <+: l := List.isPrefixOf_iff_prefix.mp h
      have h3 : 3 ≤ l.length := by simpa using hp.length_le
      have harg : (dropNl ((l.drop 3).dropWhile isWordChar)).length ≤ f := by
        have h1 := dropNl_length_le ((l.drop 3).dropWhile isWordChar)
        have h2 : ((l.drop 3).dropWhile isWordChar).length ≤ (l.drop 3).length :=
          (List.dropWhile_suffix isWordChar).length_le
        have h4 : (l.drop 3).length = l.length - 3 := l.length_drop 3
        omega
      rw [stripFences_fence h]
      simp only [stripFencesFuel, h, if_pos]
      exact ih _ harg
    · cases l with
      | nil =>
        rw [stripFences_nil]
        rfl
      | cons c rest =>
        rw [stripFences_cons h]
        simp only [stripFencesFuel, h, if_neg, Bool.not_eq_true]
        have : rest.length ≤ f := by
          simp at hf
          omega
        rw [ih _ this]

/-- Evaluation form of `stripFences`: enough fuel makes the structural
evaluator agree. -/
theorem stripFences_eval (l : List Char) :
    stripFences l = stripFencesFuel l.length l :=
  (stripFencesFuel_eq l.length l (Nat.le_refl _)).symm

/-- Embedding of `cleaned.trim()`: drop JS whitespace from both ends. -/
def trimChars (l : List Char) : List Char :=
  ((l.dropWhile isJsWs).reverse.dropWhile isJsWs).reverse

/-- String wrapper for `trimChars`. -/
def jsTrim (s : String) : String := ⟨trimChars s.data⟩

/-- The fixed preface list of index.js lines 140-146. -/
def unwantedPrefixes : List String :=
  ["Here's the code:", "Here is the code:", "The code is:",
   "Here's your code:", "Here is your code:"]

/-- Embedding of `cleaned.toLowerCase().startsWith(prefix.toLowerCase())`
(line 149).
`Char.toLower` is the ASCII case mapping; the engine's Unicode mapping
coincides with it on every character able to begin a match of the fixed
ASCII preface list. -/
def startsWithCI (s p : String) : Bool :=
  List.isPrefixOf (p.data.map Char.toLower) (s.data.map Char.toLower)

/-- The loop of index.js lines 148-153: find the first preface the trimmed
text starts with (case-insensitively), drop `prefix.length` characters
(`substring`), re-trim, and stop (`break`); no match leaves the text as is. -/
def stripPreface (cleaned : String) : String :=
  match unwantedPrefixes.find? (fun p => startsWithCI cleaned p) with
  | some p => jsTrim ⟨cleaned.data.drop p.length⟩
  | none => cleaned

/-- Embedding of `cleanGeneratedCode` (index.js lines 132-156): remove fence markers,
trim, then strip at most one known preface. -/
def cleanGeneratedCode (code : String) : String :=
  stripPreface (jsTrim ⟨stripFences code.data⟩)

/-- A JS value in the positions the handler reads from `req.body`: either
`undefined` (the key is absent) or a string. -/
inductive JsValue where
  | undef
  | str (s : String)
deriving DecidableEq

/-- Coercions `ToString` and `ToPropertyKey` of a `JsValue` as the engine applies them in
a template literal and in a bracket lookup: `undefined` becomes the text
`"undefined"`; a string is itself. -/
def jsToString : JsValue → String
  | .undef => "undefined"
  | .str s => s

/-- The own properties of the `languageInstructions` object literal
(index.js lines 109-116). -/
def languageInstructions : List (String × String) :=
  [("javascript",
    "Generate clean, modern JavaScript code. Use ES6+ features when appropriate."),
   ("python",
    "Generate clean Python code following PEP 8 standards. Use type hints when helpful."),
   ("java",
    "Generate clean Java code with proper class structure and naming conventions."),
   ("cpp",
    "Generate clean C++ code with proper headers and modern C++ features."),
   ("html",
    "Generate semantic HTML5 code with proper structure and accessibility."),
   ("css",
    "Generate modern CSS with flexbox/grid and responsive design principles.")]

/-- A bracket read `languageInstructions[key]` that misses every own key
continues along the prototype chain to `Object.prototype`. These are its
properties; every one holds a truthy value (a built-in function, or for
`__proto__` the `Object.prototype` object itself), paired here with the text
a template literal interpolates for that value under Node's engine. -/
def objectProtoValues : List (String × String) :=
  [("constructor", "function Object() \x7b [native code] \x7d"),
   ("hasOwnProperty", "function hasOwnProperty() \x7b [native code] \x7d"),
   ("isPrototypeOf", "function isPrototypeOf() \x7b [native code] \x7d"),
   ("propertyIsEnumerable", "function propertyIsEnumerable() \x7b [native code] \x7d"),
   ("toLocaleString", "function toLocaleString() \x7b [native code] \x7d"),
   ("toString", "function toString() \x7b [native code] \x7d"),
   ("valueOf", "function valueOf() \x7b [native code] \x7d"),
   ("__defineGetter__", "function __defineGetter__() \x7b [native code] \x7d"),
   ("__defineSetter__", "function __defineSetter__() \x7b [native code] \x7d"),
   ("__lookupGetter__", "function __lookupGetter__() \x7b [native code] \x7d"),
   ("__lookupSetter__", "function __lookupSetter__() \x7b [native code] \x7d"),
   ("__proto__", "[object Object]")]

/-- Embedding of `languageInstructions[language]` (line 123): own properties first, then
the `Object.prototype` chain; `none` stands for `undefined`, the only falsy
outcome, so `x || d` is `(x).getD d`. -/
def jsLookupLangInstr (key : String) : Option String :=
  (languageInstructions.lookup key).orElse fun _ => objectProtoValues.lookup key

/-- The generic fallback directive of line 123. -/
def genericDirective : String := "Generate clean, well-structured code."

/-- Template text before the first `${language}`. -/
def promptPart1 : String :=
  "You are a code generation assistant. Convert the following natural language request into "

/-- Template text between the first `${language}` and the quoted transcript. -/
def promptPart2 : String := " code.\n\nRequest: "

/-- Template text between the quoted transcript and the directive line. -/
def promptPart3 : String := "\n\nRequirements:\n- "

/-- Template text between the directive and the closing `${language}`. -/
def promptPart4 : String :=
  "\n- Include helpful comments\n- Make the code production-ready\n- If the request is unclear, make reasonable assumptions\n- Only return the code, no explanations or markdown formatting\n\nGenerate the "

/-- Template text after the closing `${language}`. -/
def promptPart5 : String := " code:"

/-- The template literal of index.js lines 118-129, with the three
interpolation holes explicit. -/
def promptText (transcript languageStr directive : String) : String :=
  promptPart1 ++ languageStr ++ promptPart2 ++ "\"" ++ transcript ++ "\"" ++
    promptPart3 ++ directive ++ promptPart4 ++ languageStr ++ promptPart5

/-- Embedding of `createCodePrompt` (index.js lines 108-130). -/
def createCodePrompt (transcript : String) (language : JsValue) : String :=
  promptText transcript (jsToString language)
    ((jsLookupLangInstr (jsToString language)).getD genericDirective)

/-- Does `n` occur as a contiguous segment of `l`?  Executable companion of
`List.IsInfix`. -/
def segB (n : List Char) : List Char → Bool
  | [] => n.isEmpty
  | c :: t => List.isPrefixOf n (c :: t) || segB n t

/-- Predicate `strContainsB hay needle`: does `needle` occur contiguously in `hay`? -/
def strContainsB (hay needle : String) : Bool := segB needle.data hay.data

theorem segB_iff_isInfix (n l : List Char) : segB n l = true ↔ n <:+: l := by
  induction l with
  | nil =>
    simp [segB, List.isEmpty_iff]
  | cons c t ih =>
    simp [segB, List.isPrefixOf_iff_prefix, ih, List.infix_cons_iff]

/-! Lemmas: the sanitizer's output carries no triple backtick, is trimmed,
and a second run of the sanitizer can only strip a further preface. -/

/-- The backtick character, `'\x60'`. -/
def tick : Char := Char.ofNat 96

theorem bt3_eq : "```".data = [tick, tick, tick] := by decide

theorem data_mk (l : List Char) : (String.mk l).data = l := rfl

theorem mk_data (s : String) : String.mk s.data = s := by
  cases s
  rfl

theorem single_prefix_iff {a : Char} {l : List Char} :
    [a] <+: l ↔ l.head? = some a := by
  cases l with
  | nil => simp
  | cons b r => simp [List.cons_prefix_cons, eq_comm]

theorem segB_cons (n : List Char) (c : Char) (t : List Char) :
    segB n (c :: t) = (List.isPrefixOf n (c :: t) || segB n t) := rfl

theorem segB_eq_false_mono {n s t : List Char} (hsub : t <:+: s)
    (h : segB n s = false) : segB n t = false := by
  by_contra hb
  have ht : segB n t = true := by
    cases hx : segB n t with
    | false => exact absurd hx hb
    | true => rfl
  have : n <:+: s := ((segB_iff_isInfix n t).mp ht).trans hsub
  rw [(segB_iff_isInfix n s).mpr this] at h
  exact Bool.true_eq_false.mp h

/-- A list that does not start with a backtick still does not after
`stripFences`. -/
theorem stripFences_head_ne_tick {l : List Char} (h : l.head? ≠ some tick) :
    (stripFences l).head? ≠ some tick := by
  cases l with
  | nil =>
    rw [stripFences_nil]
    simp
  | cons c rest =>
    have hc : c ≠ tick := by simpa using h
    have hnp : ¬ List.isPrefixOf "```".data (c :: rest) = true := by
      intro habs
      have := List.isPrefixOf_iff_prefix.mp habs
      rw [bt3_eq] at this
      exact hc (List.cons_prefix_cons.mp this).1.symm
    rw [stripFences_cons hnp]
    simpa using hc

/-- A list that does not start with two backticks still does not after
`stripFences`. -/
theorem stripFences_not_two_ticks {l : List Char}
    (h : ¬ [tick, tick] <+: l) : ¬ [tick, tick] <+: stripFences l := by
  cases l with
  | nil =>
    rw [stripFences_nil]
    exact h
  | cons c rest =>
    by_cases hc : c = tick
    · subst hc
      have hrest : ¬ [tick] <+: rest := by
        intro habs
        exact h (List.cons_prefix_cons.mpr ⟨rfl, habs⟩)
      have hhead : rest.head? ≠ some tick := fun habs =>
        hrest (single_prefix_iff.mpr habs)
      have hnp : ¬ List.isPrefixOf "```".data (tick :: rest) = true := by
        intro habs
        have hp := List.isPrefixOf_iff_prefix.mp habs
        rw [bt3_eq] at hp
        have h2 : [tick, tick] <+: rest := (List.cons_prefix_cons.mp hp).2
        have h1 : [tick] <+: [tick, tick] := by simp [List.cons_prefix_cons]
        exact hrest (h1.trans h2)
      rw [stripFences_cons hnp]
      intro habs
      have h1 : [tick] <+: stripFences rest := (List.cons_prefix_cons.mp habs).2
      exact stripFences_head_ne_tick hhead (single_prefix_iff.mp h1)
    · have hnp : ¬ List.isPrefixOf "```".data (c :: rest) = true := by
        intro habs
        have := List.isPrefixOf_iff_prefix.mp habs
        rw [bt3_eq] at this
        exact hc (List.cons_prefix_cons.mp this).1.symm
      rw [stripFences_cons hnp]
      intro habs
      exact hc (List.cons_prefix_cons.mp habs).1.symm

/-- The output of the fence-removal stage contains no triple backtick. -/
theorem stripFences_noTriple (l : List Char) :
    segB "```".data (stripFences l) = false := by
  induction l using stripFences.induct with
  | case1 x h ih =>
    rw [stripFences_fence h]
    exact ih
  | case2 _ _ =>
    rw [stripFences_nil]
    decide
  | case3 c rest h _ ih =>
    rw [stripFences_cons h]
    rw [segB_cons, Bool.or_eq_false_iff]
    refine ⟨?_, ih⟩
    by_contra hb
    have hp : "```".data <+: c :: stripFences rest := by
      rw [← List.isPrefixOf_iff_prefix]
      cases hx : List.isPrefixOf "```".data (c :: stripFences rest) with
      | false => exact absurd hx hb
      | true => rfl
    rw [bt3_eq] at hp
    obtain ⟨hc, htail⟩ := List.cons_prefix_cons.mp hp
    subst hc
    have hrest : ¬ [tick, tick] <+: rest := by
      intro habs
      apply h
      rw [List.isPrefixOf_iff_prefix, bt3_eq]
      exact List.cons_prefix_cons.mpr ⟨rfl, habs⟩
    exact stripFences_not_two_ticks hrest htail

/-- On a triple-backtick-free list the fence-removal stage is the
identity. -/
theorem stripFences_id_of_noTriple {l : List Char}
    (h : segB "```".data l = false) : stripFences l = l := by
  induction l using stripFences.induct with
  | case1 x hx ih =>
    have : segB "```".data x = true := by
      rw [segB_iff_isInfix]
      exact (List.isPrefixOf_iff_prefix.mp hx).isInfix
    rw [this] at h
    exact absurd h (by simp)
  | case2 _ _ =>
    exact stripFences_nil
  | case3 c rest hx _ ih =>
    rw [segB_cons, Bool.or_eq_false_iff] at h
    rw [stripFences_cons hx, ih h.2]

theorem head_of_dropWhile_false {p : Char → Bool} {l : List Char} {c : Char}
    {r : List Char} (h : l.dropWhile p = c :: r) : p c = false := by
  induction l with
  | nil => simp at h
  | cons d t ih =>
    by_cases hd : p d
    · rw [List.dropWhile_cons, if_pos hd] at h
      exact ih h
    · rw [List.dropWhile_cons, if_neg hd] at h
      obtain ⟨hdc, -⟩ := List.cons.injEq .. ▸ h
      rw [← hdc]
      exact Bool.not_eq_true _ ▸ hd

theorem dropWhile_dropWhile (p : Char → Bool) (l : List Char) :
    List.dropWhile p (List.dropWhile p l) = List.dropWhile p l := by
  induction l with
  | nil => rfl
  | cons c t ih =>
    by_cases h : p c
    · rw [List.dropWhile_cons, if_pos h, ih]
    · rw [List.dropWhile_cons, if_neg h, List.dropWhile_cons, if_neg h]

theorem trimChars_isInfix (l : List Char) : trimChars l <:+: l := by
  have h1 : l.dropWhile isJsWs <:+ l := List.dropWhile_suffix _
  have h2 : ((l.dropWhile isJsWs).reverse.dropWhile isJsWs) <:+
      (l.dropWhile isJsWs).reverse := List.dropWhile_suffix _
  have h3 : trimChars l <+: l.dropWhile isJsWs := by
    unfold trimChars
    rw [← List.reverse_reverse (l.dropWhile isJsWs), List.reverse_prefix]
    simpa using h2
  exact h3.isInfix.trans h1.isInfix

theorem trimChars_front (l : List Char) :
    (trimChars l).dropWhile isJsWs = trimChars l := by
  unfold trimChars
  cases ha : l.dropWhile isJsWs with
  | nil => simp
  | cons c r =>
    have hc : isJsWs c = false := head_of_dropWhile_false ha
    by_cases he : (r.reverse.dropWhile isJsWs).isEmpty
    · simp [List.reverse_cons, List.dropWhile_append, he, List.dropWhile_cons, hc]
    · simp [List.reverse_cons, List.dropWhile_append, he, List.dropWhile_cons, hc]

theorem trimChars_back (l : List Char) :
    (trimChars l).reverse.dropWhile isJsWs = (trimChars l).reverse := by
  unfold trimChars
  rw [List.reverse_reverse]
  exact dropWhile_dropWhile _ _

theorem trimChars_eq_self {l : List Char} (h1 : l.dropWhile isJsWs = l)
    (h2 : l.reverse.dropWhile isJsWs = l.reverse) : trimChars l = l := by
  unfold trimChars
  rw [h1, h2, List.reverse_reverse]

theorem trimChars_idem (l : List Char) :
    trimChars (trimChars l) = trimChars l :=
  trimChars_eq_self (trimChars_front l) (trimChars_back l)

/-- The sanitizer's output is trimmed. -/
theorem cleanGeneratedCode_trimmed (x : String) :
    trimChars (cleanGeneratedCode x).data = (cleanGeneratedCode x).data := by
  unfold cleanGeneratedCode stripPreface
  cases hf : unwantedPrefixes.find?
      (fun p => startsWithCI (jsTrim ⟨stripFences x.data⟩) p) with
  | none =>
    simp only [jsTrim, data_mk]
    exact trimChars_idem _
  | some p =>
    simp only [jsTrim, data_mk]
    exact trimChars_idem _

/-- The sanitizer's output contains no triple backtick. -/
theorem cleanGeneratedCode_noTriple (x : String) :
    segB "```".data (cleanGeneratedCode x).data = false := by
  have h0 : segB "```".data (stripFences x.data) = false :=
    stripFences_noTriple x.data
  have h1 : segB "```".data (trimChars (stripFences x.data)) = false :=
    segB_eq_false_mono (trimChars_isInfix _) h0
  unfold cleanGeneratedCode stripPreface
  cases hf : unwantedPrefixes.find?
      (fun p => startsWithCI (jsTrim ⟨stripFences x.data⟩) p) with
  | none =>
    simpa [jsTrim, data_mk] using h1
  | some p =>
    simp only [jsTrim, data_mk]
    have hdrop : (trimChars (stripFences x.data)).drop p.length <:+:
        trimChars (stripFences x.data) :=
      (List.drop_suffix _ _).isInfix
    exact segB_eq_false_mono (trimChars_isInfix _)
      (segB_eq_false_mono hdrop h1)

/-- A second run of the sanitizer strips no fences and does not re-trim: it
is exactly the preface stage applied to the first run's output. -/
theorem cleanGeneratedCode_second (x : String) :
    cleanGeneratedCode (cleanGeneratedCode x) =
      stripPreface (cleanGeneratedCode x) := by
  conv_lhs => rw [cleanGeneratedCode]
  rw [stripFences_id_of_noTriple (cleanGeneratedCode_noTriple x), mk_data]
  have ht : jsTrim (cleanGeneratedCode x) = cleanGeneratedCode x := by
    unfold jsTrim
    rw [cleanGeneratedCode_trimmed, mk_data]
  rw [ht]

/-- Stage-1 output as a removal relation, read off the regex of line 134:
`FenceRemoval source out` holds when `out` is `source` with some
delimiter spans deleted and every other character kept in place, a
delimiter span being a triple backtick, an optional language tag of word
characters, and an optional immediately following newline. -/
inductive FenceRemoval : List Char → List Char → Prop where
  | nil : FenceRemoval [] []
  | keep (c : Char) {s t : List Char} :
      FenceRemoval s t → FenceRemoval (c :: s) (c :: t)
  | delim {w nl s t : List Char} (hw : ∀ c ∈ w, isWordChar c = true)
      (hnl : nl = [] ∨ nl = "\n".data) (h : FenceRemoval s t) :
      FenceRemoval ("```".data ++ (w ++ (nl ++ s))) t

/-- The removal relation exactly as the claim words it: a delimiter is only
the triple backtick plus an optional language tag — no newline. -/
inductive FenceRemovalClaimed : List Char → List Char → Prop where
  | nil : FenceRemovalClaimed [] []
  | keep (c : Char) {s t : List Char} :
      FenceRemovalClaimed s t → FenceRemovalClaimed (c :: s) (c :: t)
  | delim {w s t : List Char} (hw : ∀ c ∈ w, isWordChar c = true)
      (h : FenceRemovalClaimed s t) :
      FenceRemovalClaimed ("```".data ++ (w ++ s)) t

/-- Function `stripFences` refines the faithful removal relation: its output is the
input minus delimiter spans (with the newline), all else kept in place. -/
theorem stripFences_fenceRemoval (l : List Char) :
    FenceRemoval l (stripFences l) := by
  induction l using stripFences.induct with
  | case1 x h ih =>
    obtain ⟨r, hr⟩ := List.isPrefixOf_iff_prefix.mp h
    have hlen : ("```".data).length = 3 := by decide
    have hdrop : x.drop 3 = r := by
      rw [← hr, ← hlen, List.drop_left]
    rw [hdrop] at ih
    have hsplit : ∃ nl, (nl = [] ∨ nl = "\n".data) ∧
        nl ++ dropNl (r.dropWhile isWordChar) = r.dropWhile isWordChar := by
      cases hd : r.dropWhile isWordChar with
      | nil => exact ⟨[], Or.inl rfl, rfl⟩
      | cons c d =>
        by_cases hc : c = '\n'
        · subst hc
          exact ⟨"\n".data, Or.inr rfl, by simp [dropNl]⟩
        · exact ⟨[], Or.inl rfl, by simp [dropNl, hc]⟩
    obtain ⟨nl, hnl, hnld⟩ := hsplit
    have hx : x = "```".data ++
        (r.takeWhile isWordChar ++ (nl ++ dropNl (r.dropWhile isWordChar))) := by
      rw [hnld, List.takeWhile_append_dropWhile, hr]
    have hgoal : FenceRemoval
        ("```".data ++
          (r.takeWhile isWordChar ++ (nl ++ dropNl (r.dropWhile isWordChar))))
        (stripFences (dropNl (r.dropWhile isWordChar))) :=
      FenceRemoval.delim (fun c hc => List.mem_takeWhile_imp hc) hnl ih
    rw [stripFences_fence h, hdrop]
    rwa [← hx] at hgoal
  | case2 _ _ =>
    rw [stripFences_nil]
    exact FenceRemoval.nil
  | case3 c rest h _ ih =>
    rw [stripFences_cons h]
    exact FenceRemoval.keep c ih

theorem not_claimed_nl_b : ¬ FenceRemovalClaimed ['\n', 'b'] ['b'] := by
  intro h
  generalize hsrc : (['\n', 'b'] : List Char) = src at h
  cases h with
  | keep c h2 =>
    simp_all
  | delim hw h2 =>
    rename_i w s
    rw [bt3_eq] at hsrc
    simp at hsrc

theorem not_claimed_fence_nl_b :
    ¬ FenceRemovalClaimed [tick, tick, tick, '\n', 'b'] ['b'] := by
  intro h
  generalize hsrc : ([tick, tick, tick, '\n', 'b'] : List Char) = src at h
  cases h with
  | keep c h2 =>
    simp_all [tick]
  | delim hw h2 =>
    rename_i w s
    rw [bt3_eq] at hsrc
    simp only [List.cons_append, List.nil_append, List.cons.injEq, true_and] at hsrc
    cases w with
    | nil =>
      simp only [List.nil_append] at hsrc
      rw [← hsrc] at h2
      exact not_claimed_nl_b h2
    | cons c w2 =>
      rw [List.cons_append] at hsrc
      have hc : '\n' = c := (List.cons.injEq .. ▸ hsrc).1
      have := hw c (by simp)
      rw [← hc] at this
      simp [isWordChar] at this

theorem not_claimed_main :
    ¬ FenceRemovalClaimed ['a', tick, tick, tick, '\n', 'b'] ['a', 'b'] := by
  intro h
  generalize hsrc : (['a', tick, tick, tick, '\n', 'b'] : List Char) = src at h
  cases h with
  | keep c h2 =>
    have hs : [tick, tick, tick, '\n', 'b'] = _ := (List.cons.injEq .. ▸ hsrc).2
    rw [← hs] at h2
    exact not_claimed_fence_nl_b h2
  | delim hw h2 =>
    rename_i w s
    rw [bt3_eq] at hsrc
    simp [tick] at hsrc

/-- One element of `response.results`: a recognition result with its
transcript alternatives (each alternative's `transcript` field). -/
structure SpeechRecResult where
  alternatives : List String
deriving DecidableEq

/-- The two external collaborators as the handler observes them in one run:
what `speechClient.recognize` resolves to (its result list, or a thrown
error's message) and what the Gemini call resolves to (the one candidate's
text, or a thrown error's message; a response with no candidate also throws
while being read and is covered by the error side). -/
structure Env where
  speechOutcome : Except String (List SpeechRecResult)
  genOutcome : Except String String

/-- The JSON the handler sends for a POST: a `success:false` body with its
HTTP status and `error` text, or the `success:true` body of line 92-97. -/
inductive HttpResponse where
  | failure (status : Nat) (error : String)
  | ok (status : Nat) (transcript code : String) (language : JsValue)
deriving DecidableEq

/-- One run of the handler: the response, whether each external service was
invoked, and the error payloads passed to `console.error`. -/
structure PipelineRun where
  response : HttpResponse
  speechInvoked : Bool
  genInvoked : Bool
  loggedErrors : List String
deriving DecidableEq

/-- Embedding of `results.map(result => result.alternatives[0].transcript)`
(lines 59-60):
`none` when some result has no alternative, in which case reading
`.transcript` of `undefined` throws and the catch block answers. -/
def firstAlternatives : List SpeechRecResult → Option (List String)
  | [] => some []
  | r :: rs =>
    match r.alternatives with
    | [] => none
    | a :: _ => (firstAlternatives rs).map fun l => a :: l

/-- Embedding of `.join('\n')` (line 61). -/
def joinNl : List String → String
  | [] => ""
  | [s] => s
  | s :: rest => s ++ "\n" ++ joinNl rest

/-- The message of the TypeError thrown on line 60 when a result has no
alternative, as the catch block logs it. -/
def emptyAlternativesError : String :=
  "TypeError: Cannot read properties of undefined (reading 'transcript')"

/-- The validation message of line 37. -/
def noAudioMsg : String := "No audio data provided"

/-- The no-speech message of line 66. -/
def noSpeechMsg : String := "No speech detected. Please try speaking more clearly."

/-- The generic catch-all message of line 103. -/
def genericFailureMsg : String := "Failed to process voice input. Please try again."

/-- The POST path of the `processVoice` handler (index.js lines 33-105) over
an abstract environment for the two service calls: validate the audio field
(`!audio`, line 36), call the speech service, assemble the transcript,
reject a blank one (line 63), call the generation service, sanitize, answer.
A thrown service error reaches the catch block, which logs it and answers
with the one generic 500 body. -/
def processVoice (audio : JsValue) (language : JsValue) (env : Env) :
    PipelineRun :=
  if audio = .undef ∨ audio = .str "" then
    ⟨.failure 400 noAudioMsg, false, false, []⟩
  else
    match env.speechOutcome with
    | .error e => ⟨.failure 500 genericFailureMsg, true, false, [e]⟩
    | .ok results =>
      match firstAlternatives results with
      | none =>
        ⟨.failure 500 genericFailureMsg, true, false, [emptyAlternativesError]⟩
      | some pieces =>
        let transcription := joinNl pieces
        if (trimChars transcription.data).isEmpty then
          ⟨.failure 400 noSpeechMsg, true, false, []⟩
        else
          match env.genOutcome with
          | .error e => ⟨.failure 500 genericFailureMsg, true, true, [e]⟩
          | .ok raw =>
            ⟨.ok 200 transcription (cleanGeneratedCode raw) language,
              true, true, []⟩

/-! Helper lemmas for the prompt builder and the pipeline. -/

theorem lookup_eq_none_of_not_mem_keys (al : List (String × String))
    (k : String) (h : k ∉ al.map Prod.fst) : List.lookup k al = none := by
  induction al with
  | nil => rfl
  | cons hd tl ih =>
    simp only [List.map_cons, List.mem_cons, not_or] at h
    obtain ⟨h1, h2⟩ := h
    cases hd with
    | mk a b =>
      have hb : (k == a) = false := beq_eq_false_iff_ne.mpr h1
      simp [List.lookup_cons, hb, ih h2]

theorem promptText_contains_quoted (t l d : String) :
    strContainsB (promptText t l d) ("\"" ++ t ++ "\"") = true := by
  unfold strContainsB promptText
  rw [segB_iff_isInfix]
  refine ⟨(promptPart1 ++ l ++ promptPart2).data,
    (promptPart3 ++ d ++ promptPart4 ++ l ++ promptPart5).data, ?_⟩
  simp [String.data_append, List.append_assoc]

theorem promptText_contains_lang (t l d : String) :
    strContainsB (promptText t l d) l = true := by
  unfold strContainsB promptText
  rw [segB_iff_isInfix]
  refine ⟨promptPart1.data,
    (promptPart2 ++ "\"" ++ t ++ "\"" ++ promptPart3 ++ d ++ promptPart4 ++ l
      ++ promptPart5).data, ?_⟩
  simp [String.data_append, List.append_assoc]

theorem promptText_contains_dir (t l d : String) :
    strContainsB (promptText t l d) d = true := by
  unfold strContainsB promptText
  rw [segB_iff_isInfix]
  refine ⟨(promptPart1 ++ l ++ promptPart2 ++ "\"" ++ t ++ "\"" ++
    promptPart3).data, (promptPart4 ++ l ++ promptPart5).data, ?_⟩
  simp [String.data_append, List.append_assoc]

theorem joinNl_all_ws {pieces : List String}
    (h : ∀ s ∈ pieces, ∀ c ∈ s.data, isJsWs c = true) :
    ∀ c ∈ (joinNl pieces).data, isJsWs c = true := by
  induction pieces with
  | nil => simp [joinNl]
  | cons s rest ih =>
    cases rest with
    | nil => simpa [joinNl] using h s (by simp)
    | cons r t =>
      intro c hc
      simp only [joinNl, String.data_append] at hc
      rcases List.mem_append.mp hc with hc1 | hc2
      · rcases List.mem_append.mp hc1 with hc3 | hc4
        · exact h s (by simp) c hc3
        · have : c = '\n' := by simpa using hc4
          subst this
          decide
      · exact ih (fun x hx => h x (List.mem_cons_of_mem s hx)) c hc2

theorem trimChars_eq_nil_of_all_ws {l : List Char}
    (h : ∀ c ∈ l, isJsWs c = true) : trimChars l = [] := by
  unfold trimChars
  have h1 : l.dropWhile isJsWs = [] := List.dropWhile_eq_nil_iff.mpr h
  rw [h1]
  rfl

theorem firstAlternatives_eq_heads {results : List SpeechRecResult}
    (h : ∀ r ∈ results, r.alternatives ≠ []) :
    firstAlternatives results =
      some (results.map fun r => r.alternatives.headD "") := by
  induction results with
  | nil => rfl
  | cons r rs ih =>
    have hr : r.alternatives ≠ [] := h r (by simp)
    cases halt : r.alternatives with
    | nil => exact absurd halt hr
    | cons a t =>
      have ihr := ih (fun x hx => h x (by simp [hx]))
      simp [firstAlternatives, halt, ihr]

/-! The claims. -/

/-- Claim C1, counterexample: the sanitizer is not idempotent. On the input
`"Here's the code: Here is the code: foo()"` it strips only the first
preface (the loop breaks after one match), so its output still begins with a
known preface and a second run changes it again. -/
theorem claim_c1_counterexample :
    cleanGeneratedCode "Here's the code: Here is the code: foo()" =
      "Here is the code: foo()" ∧
    cleanGeneratedCode "Here is the code: foo()" = "foo()" ∧
    (("Here is the code: foo()" : String) == "foo()") = false := by
  refine ⟨?_, ?_, by decide⟩ <;>
    (rw [cleanGeneratedCode, stripFences_eval]; decide)

/-- Claim C1 (amended): the sanitizer is idempotent on every input whose
sanitized output does not again begin, case-insensitively, with one of the
five known preface phrases; a second run strips no fences and does not
re-trim, it can only remove one further leading preface. -/
theorem claim_c1_theorem (x : String)
    (h : unwantedPrefixes.find?
      (fun p => startsWithCI (cleanGeneratedCode x) p) = none) :
    cleanGeneratedCode (cleanGeneratedCode x) = cleanGeneratedCode x := by
  rw [cleanGeneratedCode_second, stripPreface, h]

/-- Claim C1, witness: a concrete input whose sanitized output starts with
no preface, on which the sanitizer is idempotent. -/
theorem claim_c1_witness :
    unwantedPrefixes.find?
      (fun p => startsWithCI (cleanGeneratedCode "```python\nprint(1)\n```") p) =
        none ∧
    cleanGeneratedCode (cleanGeneratedCode "```python\nprint(1)\n```") =
      cleanGeneratedCode "```python\nprint(1)\n```" := by
  have he : cleanGeneratedCode "```python\nprint(1)\n```" = "print(1)" := by
    rw [cleanGeneratedCode, stripFences_eval]
    decide
  have hn : unwantedPrefixes.find?
      (fun p => startsWithCI (cleanGeneratedCode "```python\nprint(1)\n```") p) =
        none := by
    rw [he]
    decide
  exact ⟨hn, claim_c1_theorem "```python\nprint(1)\n```" hn⟩

/-- Claim C2, counterexample: `"__proto__"` is not one of the six fixed
language keys, yet the prompt built for it does not contain the generic
directive — the bracket lookup finds the inherited `Object.prototype`
member, which is truthy, so the `||` fallback never fires. -/
theorem claim_c2_counterexample :
    (("__proto__" : String) ∉ languageInstructions.map Prod.fst) ∧
    strContainsB (createCodePrompt "x" (JsValue.str "__proto__"))
      genericDirective = false := by
  constructor
  · decide
  · set_option maxRecDepth 8192 in decide

/-- Claim C2 (amended): for every language string that is neither one of the
six fixed keys nor the name of an `Object.prototype` member, the built
prompt uses the generic directive in the requirement slot and contains it;
the call returns a string for every input (the embedding is total). -/
theorem claim_c2_theorem (t l : String)
    (h1 : l ∉ languageInstructions.map Prod.fst)
    (h2 : l ∉ objectProtoValues.map Prod.fst) :
    createCodePrompt t (JsValue.str l) = promptText t l genericDirective ∧
    strContainsB (createCodePrompt t (JsValue.str l)) genericDirective =
      true := by
  have hl : jsLookupLangInstr l = none := by
    unfold jsLookupLangInstr
    rw [lookup_eq_none_of_not_mem_keys _ _ h1,
      lookup_eq_none_of_not_mem_keys _ _ h2]
    rfl
  have heq : createCodePrompt t (JsValue.str l) =
      promptText t l genericDirective := by
    simp [createCodePrompt, jsToString, hl]
  exact ⟨heq, heq ▸ promptText_contains_dir t l genericDirective⟩

/-- Claim C2, witness: `language = "rust"` is not a fixed key and not an
`Object.prototype` member; its prompt carries the generic directive. -/
theorem claim_c2_witness :
    createCodePrompt "add two numbers" (JsValue.str "rust") =
      promptText "add two numbers" "rust" genericDirective ∧
    strContainsB (createCodePrompt "add two numbers" (JsValue.str "rust"))
      genericDirective = true :=
  claim_c2_theorem "add two numbers" "rust" (by decide) (by decide)

/-- Claim C3: the sanitizer strips exactly one leading known preface,
case-insensitively, and stops after the first match of the five-entry list:
the two quoted examples evaluate as claimed, a second remaining preface is
kept, and in general the preface stage removes exactly the first matching
prefix (then re-trims) or, with no match, returns its input unchanged. -/
theorem claim_c3_theorem :
    cleanGeneratedCode "Here's the code:\n  foo()" = "foo()" ∧
    cleanGeneratedCode "HERE IS THE CODE: bar()" = "bar()" ∧
    cleanGeneratedCode "The code is: Here's the code: foo()" =
      "Here's the code: foo()" ∧
    (∀ s p, unwantedPrefixes.find? (fun q => startsWithCI s q) = some p →
      p ∈ unwantedPrefixes ∧ startsWithCI s p = true ∧
      stripPreface s = jsTrim ⟨s.data.drop p.length⟩) ∧
    (∀ s, unwantedPrefixes.find? (fun q => startsWithCI s q) = none →
      stripPreface s = s) := by
  refine ⟨?_, ?_, ?_, ?_, ?_⟩
  · rw [cleanGeneratedCode, stripFences_eval]
    decide
  · rw [cleanGeneratedCode, stripFences_eval]
    decide
  · rw [cleanGeneratedCode, stripFences_eval]
    decide
  · intro s p hfind
    exact ⟨List.mem_of_find?_eq_some hfind, List.find?_some hfind,
      by simp [stripPreface, hfind]⟩
  · intro s hfind
    simp [stripPreface, hfind]

/-- Claim C4: the sanitizer's output never contains three consecutive
backticks, and on the fenced input `"```js\ncode\n```"` it is exactly
`"code"`. -/
theorem claim_c4_theorem :
    (∀ code : String,
      segB "```".data (cleanGeneratedCode code).data = false) ∧
    cleanGeneratedCode "```js\ncode\n```" = "code" := by
  refine ⟨cleanGeneratedCode_noTriple, ?_⟩
  rw [cleanGeneratedCode, stripFences_eval]
  decide

/-- Claim C5, counterexample: stage 1 does not leave every character outside
a claim-described delimiter in place. On `"a```\nb"` the regex also consumes
the newline after the fence, so the stage-1 output is `"ab"`, which is not
reachable by removing only triple-backtick-plus-tag delimiters. -/
theorem claim_c5_counterexample :
    stripFences "a```\nb".data = "ab".data ∧
    ¬ FenceRemovalClaimed "a```\nb".data "ab".data := by
  constructor
  · rw [stripFences_eval]
    decide
  · have e1 : "a```\nb".data = ['a', tick, tick, tick, '\n', 'b'] := by decide
    have e2 : "ab".data = ['a', 'b'] := by decide
    rw [e1, e2]
    exact not_claimed_main

/-- Claim C5 (amended): stage 1 removes only fenced-code-block delimiters
and leaves all enclosed text in place, where a delimiter is a triple
backtick, an optional language tag, and one optional immediately following
newline. -/
theorem claim_c5_theorem :
    ∀ code : String, FenceRemoval code.data (stripFences code.data) :=
  fun code => stripFences_fenceRemoval code.data

/-- Claim C6: the prompt builder is a pure deterministic function of its two
inputs, and its output contains the transcript verbatim as a quoted
substring and the target language name. -/
theorem claim_c6_theorem : ∀ t l : String,
    (∀ t2 l2, t = t2 → l = l2 →
      createCodePrompt t (JsValue.str l) = createCodePrompt t2 (JsValue.str l2)) ∧
    strContainsB (createCodePrompt t (JsValue.str l)) ("\"" ++ t ++ "\"") =
      true ∧
    strContainsB (createCodePrompt t (JsValue.str l)) l = true := by
  intro t l
  refine ⟨fun t2 l2 h1 h2 => by rw [h1, h2], ?_, ?_⟩
  · exact promptText_contains_quoted t l _
  · exact promptText_contains_lang t l _

/-- Claim C7: a missing (`undefined`) or empty audio payload yields the
400 input-validation failure, and neither the speech service nor the
generation service is invoked, whatever the environment would answer. -/
theorem claim_c7_theorem : ∀ (language : JsValue) (env : Env),
    processVoice JsValue.undef language env =
      ⟨HttpResponse.failure 400 noAudioMsg, false, false, []⟩ ∧
    processVoice (JsValue.str "") language env =
      ⟨HttpResponse.failure 400 noAudioMsg, false, false, []⟩ :=
  fun _ _ => ⟨rfl, rfl⟩

/-- Claim C8: when every recognition result's first alternative is
whitespace-only, the pipeline assembles the transcript as those first
alternatives joined with newlines, answers the 400 no-speech failure —
distinct from the input-validation failure — and never invokes the
generation service. -/
theorem claim_c8_theorem (a : String) (language : JsValue)
    (results : List SpeechRecResult) (g : Except String String)
    (ha : a ≠ "")
    (hws : ∀ r ∈ results, r.alternatives ≠ [] ∧
      ∀ c ∈ (r.alternatives.headD "").data, isJsWs c = true) :
    firstAlternatives results =
      some (results.map fun r => r.alternatives.headD "") ∧
    trimChars
      (joinNl (results.map fun r => r.alternatives.headD "")).data = [] ∧
    processVoice (JsValue.str a) language ⟨Except.ok results, g⟩ =
      ⟨HttpResponse.failure 400 noSpeechMsg, true, false, []⟩ ∧
    noSpeechMsg ≠ noAudioMsg := by
  have hfa := firstAlternatives_eq_heads (fun r hr => (hws r hr).1)
  have hall : ∀ s ∈ results.map (fun r => r.alternatives.headD ""),
      ∀ c ∈ s.data, isJsWs c = true := by
    intro s hs
    obtain ⟨r, hr, rfl⟩ := List.mem_map.mp hs
    exact (hws r hr).2
  have htrim : trimChars
      (joinNl (results.map fun r => r.alternatives.headD "")).data = [] :=
    trimChars_eq_nil_of_all_ws (joinNl_all_ws hall)
  have htrim2 : trimChars
      (joinNl (results.map fun r => r.alternatives.head?.getD "")).data = [] := by
    simpa [List.headD_eq_head?_getD] using htrim
  have hfa2 : firstAlternatives results =
      some (results.map fun r => r.alternatives.head?.getD "") := by
    simpa [List.headD_eq_head?_getD] using hfa
  refine ⟨hfa, htrim, ?_, by decide⟩
  simp [processVoice, ha, hfa2, htrim2]

/-- Claim C8, witness: a concrete run whose two recognition results carry
only blank first alternatives. -/
theorem claim_c8_witness :
    firstAlternatives [⟨[" "]⟩, ⟨["\t"]⟩] = some [" ", "\t"] ∧
    trimChars (joinNl [" ", "\t"]).data = [] ∧
    processVoice (JsValue.str "QUJD") (JsValue.str "python")
        ⟨Except.ok [⟨[" "]⟩, ⟨["\t"]⟩], Except.ok "x = 1"⟩ =
      ⟨HttpResponse.failure 400 noSpeechMsg, true, false, []⟩ ∧
    noSpeechMsg ≠ noAudioMsg :=
  claim_c8_theorem "QUJD" (JsValue.str "python") [⟨[" "]⟩, ⟨["\t"]⟩]
    (Except.ok "x = 1") (by decide) (by decide)

/-- Claim C9: a failure of either service call becomes the one generic 500
retry-suggesting response — its text is the fixed `genericFailureMsg`,
independent of the thrown error, which is logged instead. -/
theorem claim_c9_theorem (audio language : JsValue) (e : String)
    (h1 : audio ≠ JsValue.undef) (h2 : audio ≠ JsValue.str "") :
    (∀ g, processVoice audio language ⟨Except.error e, g⟩ =
      ⟨HttpResponse.failure 500 genericFailureMsg, true, false, [e]⟩) ∧
    (∀ results pieces, firstAlternatives results = some pieces →
      (trimChars (joinNl pieces).data).isEmpty = false →
      processVoice audio language ⟨Except.ok results, Except.error e⟩ =
        ⟨HttpResponse.failure 500 genericFailureMsg, true, true, [e]⟩) := by
  have hcond : ¬ (audio = JsValue.undef ∨ audio = JsValue.str "") := by
    rintro (h | h)
    · exact h1 h
    · exact h2 h
  constructor
  · intro g
    simp [processVoice, hcond]
  · intro results pieces hfa htrim
    simp [processVoice, hcond, hfa, htrim]

/-- Claim C9, witness: one concrete run with a throwing speech service and
one with a throwing generation service; both yield the generic message and
log the error. -/
theorem claim_c9_witness :
    processVoice (JsValue.str "QUJD") (JsValue.str "css")
        ⟨Except.error "boom", Except.ok "ignored"⟩ =
      ⟨HttpResponse.failure 500 genericFailureMsg, true, false, ["boom"]⟩ ∧
    processVoice (JsValue.str "QUJD") (JsValue.str "css")
        ⟨Except.ok [⟨["hello"]⟩], Except.error "boom"⟩ =
      ⟨HttpResponse.failure 500 genericFailureMsg, true, true, ["boom"]⟩ := by
  have h := claim_c9_theorem (JsValue.str "QUJD") (JsValue.str "css") "boom"
    (by decide) (by decide)
  exact ⟨h.1 (Except.ok "ignored"), h.2 [⟨["hello"]⟩] ["hello"]
    (by decide) (by decide)⟩

/-- Claim C10: with the language entirely absent (`undefined`), the lookup
key is the string `"undefined"`, which misses both the own keys and
`Object.prototype`, so the generic directive is used and the literal text
`undefined` is interpolated where the language name appears; the call still
returns a well-formed prompt. -/
theorem claim_c10_theorem : ∀ t : String,
    jsLookupLangInstr (jsToString JsValue.undef) = none ∧
    createCodePrompt t JsValue.undef =
      promptText t "undefined" genericDirective ∧
    strContainsB (createCodePrompt t JsValue.undef) "undefined" = true ∧
    strContainsB (createCodePrompt t JsValue.undef) genericDirective =
      true := by
  intro t
  have hl : jsLookupLangInstr (jsToString JsValue.undef) = none := by decide
  have heq : createCodePrompt t JsValue.undef =
      promptText t "undefined" genericDirective := by
    simp [createCodePrompt, jsToString] at hl ⊢
    simp [hl]
  refine ⟨hl, heq, ?_, ?_⟩
  · exact heq ▸ promptText_contains_lang t "undefined" genericDirective
  · exact heq ▸ promptText_contains_dir t "undefined" genericDirective

end Verbalize
